import Mathlib

/-!
Shallow embedding of the subtitle alignment-and-query engine of
`mpv2anki.py` (class `SubtitlesHelper`).  Times are modelled as exact
rationals (the source uses Python floats; every claim here is about
comparisons and additions that behave identically over ℚ), subtitle
entries as a structure with `start`, `stop` (the source's `end`, a Lean
keyword) and `text` fields, mirroring the `(start, end, text)` tuples of
the source.  Python list indexing, which may raise `IndexError`, is
modelled by `Option`-returning access where a claim is about exceptions.
-/

namespace Mpv2Anki

structure Caption where
  start : ℚ
  stop : ℚ
  text : String
deriving DecidableEq, Inhabited

/-- Characters blocking a merge when they begin the next caption
(source line 240: `sub_content[0] not in [...]`). -/
def openingMarks : List Char := ['"', '\x27', '(', '[', '-', '“', '♪']

/-- Terminal punctuation (source line 241: `prev_sub_content[-1] not in [...]`). -/
def terminalMarks : List Char := ['.', '!', '?', ')', ']', '”', '"']

/-- ASCII word characters, for the `\b` boundary of `re.match("^I\\b", ...)`. -/
def isWordChar (c : Char) : Bool := c.isAlphanum || c = '_'

/-- `re.match("^I\\b", s)` of source line 242: the text starts with `I`
followed by a word boundary (end of string or a non-word character). -/
def startsWithIWord (t : List Char) : Bool :=
  match t with
  | 'I' :: rest =>
    match rest with
    | [] => true
    | c :: _ => !isWordChar c
  | _ => false

/-- Python `s[-n:]` as a list of characters (the whole list when shorter). -/
def lastN (n : Nat) (t : List Char) : List Char := t.drop (t.length - n)

/-- The merge condition of `convert_into_sentences` (source lines 239-242),
deciding whether caption `c` is merged into the previous output element `p`. -/
def mergeCond (p c : Caption) : Bool :=
  decide (c.start - p.stop ≤ 2) &&
  decide (c.stop - p.start < 15) &&
  !(openingMarks.contains (c.text.data.headD ' ')) &&
  (!(terminalMarks.contains (p.text.data.getLastD ' ')) ||
    (decide (lastN 3 p.text.data = ['.', '.', '.']) &&
      (decide (c.text.data.take 3 = ['.', '.', '.']) ||
        (c.text.data.headD ' ').isLower ||
        startsWithIWord c.text.data)))

/-- One iteration of the loop body of `convert_into_sentences`
(source lines 229-248): mutate the last output element or append. -/
def convertStep (subs : List Caption) (sub : Caption) : List Caption :=
  match subs.getLast? with
  | some p =>
    if mergeCond p sub then
      subs.dropLast ++ [⟨p.start, sub.stop, p.text ++ " " ++ sub.text⟩]
    else
      subs ++ [sub]
  | none => [sub]

/-- `SubtitlesHelper.convert_into_sentences` (source lines 226-250). -/
def convert_into_sentences (subs : List Caption) : List Caption :=
  subs.foldl convertStep []

/-- Inner scan of Synchronizer pass 1 (source lines 261-273): index of the
first target sentence, from position `i` on, that overlaps native caption
`r` with overlap ratio strictly above `0.25`.  The `break` of the source is
the `some i` return.  Over ℚ the division is total (`x / 0 = 0`); the
zero-denominator case, where Python would raise, is treated by the
reachability predicate `scanReachesDiv` below. -/
def scanFirstAux (r : Caption) : List Caption → Nat → Option Nat
  | [], _ => none
  | en_sub :: rest, i =>
    if en_sub.start < r.stop ∧ en_sub.stop > r.start then
      let sub_start := if en_sub.start > r.start then en_sub.start else r.start
      let sub_end := if r.stop > en_sub.stop then en_sub.stop else r.stop
      if (sub_end - sub_start) / (r.stop - r.start) > 0.25 then some i
      else scanFirstAux r rest (i + 1)
    else scanFirstAux r rest (i + 1)

def scanFirst (en : List Caption) (r : Caption) : Option Nat :=
  scanFirstAux r en 0

/-- Synchronizer pass 1 (source lines 256-273): one accumulator bucket per
target sentence; each native caption is appended to the bucket of the first
qualifying sentence.  The source keeps three parallel lists per bucket
(starts, ends, texts), always extended together; they are modelled as one
list of captions. -/
def sync_pass1 (en ru : List Caption) : List (List Caption) :=
  ru.foldl
    (fun buckets r =>
      match scanFirst en r with
      | some i => buckets.set i (buckets.getD i [] ++ [r])
      | none => buckets)
    (en.map fun _ => [])

/-- Bucket collapse (source lines 275-280): an empty bucket yields the
sentence's own span with empty text; a non-empty bucket yields the first
contribution's start, the last contribution's end (`sub[0][0]`,
`sub[1][-1]`) and the texts joined by a single space. -/
def collapse (en : List Caption) (buckets : List (List Caption)) : List Caption :=
  (en.zip buckets).map fun p =>
    match p.2 with
    | [] => ⟨p.1.start, p.1.stop, ""⟩
    | c :: cs =>
      ⟨c.start, (cs.getLastD c).stop, String.intercalate " " ((c :: cs).map Caption.text)⟩

/-- Whether the pass-1 scan for native caption `r` ever executes the
division of source line 269: it does exactly at the first overlapping
sentence, whether or not the ratio test then passes (a failed ratio test
continues the scan, but the division has already run). -/
def scanReachesDiv (r : Caption) : List Caption → Bool
  | [] => false
  | en_sub :: rest =>
    if en_sub.start < r.stop ∧ en_sub.stop > r.start then true
    else scanReachesDiv r rest

/-- One merge of Synchronizer pass 2 (source lines 285-313), applied at an
index whose annotation text is empty: extend a neighboring sentence over
index `idx` and delete index `idx` from both sequences.  The neighbor
annotation bounds default to `0` when absent (source lines 288-291). -/
def mergeAt (subs translations : List Caption) (idx : Nat) : List Caption × List Caption :=
  let en_sub := subs.getD idx default
  let ru_prev_sub_end : ℚ :=
    if 0 < idx then (translations.getD (idx - 1) default).stop else 0
  let ru_next_sub_start : ℚ :=
    if idx < subs.length - 1 then (translations.getD (idx + 1) default).start else 0
  let prev := subs.getD (idx - 1) default
  let next := subs.getD (idx + 1) default
  let backward := subs.set (idx - 1) ⟨prev.start, en_sub.stop, prev.text ++ " " ++ en_sub.text⟩
  let forward := subs.set (idx + 1) ⟨en_sub.start, next.stop, en_sub.text ++ " " ++ next.text⟩
  let subs2 :=
    if idx = subs.length - 1 then backward
    else if en_sub.stop ≤ ru_next_sub_start ∧ 0 < idx then backward
    else if en_sub.start ≥ ru_next_sub_start ∨ en_sub.start ≥ ru_prev_sub_end then forward
    else if ru_prev_sub_end - en_sub.start > en_sub.stop - ru_next_sub_start ∧ 0 < idx then backward
    else forward
  (subs2.eraseIdx idx, translations.eraseIdx idx)

/-- The pass-2 loop (source lines 282-315): `while idx < len(subs) and
len(subs) > 1`, merging and deleting at `idx` when the annotation text is
empty (keeping `idx` in place), else advancing `idx`. -/
def gapRepairAux (subs translations : List Caption) (idx : Nat) : List Caption × List Caption :=
  if h : idx < subs.length ∧ 1 < subs.length then
    if (translations.getD idx default).text = "" then
      gapRepairAux (mergeAt subs translations idx).1 (mergeAt subs translations idx).2 idx
    else
      gapRepairAux subs translations (idx + 1)
  else
    (subs, translations)
termination_by subs.length - idx
decreasing_by
  · have key : ∀ l : List Caption, l.length = subs.length →
        (l.eraseIdx idx).length - idx < subs.length - idx := by
      intro l hl
      rw [List.length_eraseIdx, hl, if_pos h.1]
      omega
    simp only [mergeAt]
    exact key _ (by simp only [apply_ite List.length, List.length_set, ite_self])
  · omega

def gapRepair (subs translations : List Caption) : List Caption × List Caption :=
  gapRepairAux subs translations 0

/-- `SubtitlesHelper.sync_subtitles` (source lines 252-315): pass-1 bucket
matching and collapse, then the gap-repair loop; returns the final
(SentenceTrack, AlignedAnnotation) pair. -/
def sync_subtitles (en ru : List Caption) : List Caption × List Caption :=
  gapRepair en (collapse en (sync_pass1 en ru))

/-- Session state of `SubtitlesHelper` as used by the query surface. -/
structure SubsState where
  subs : List Caption
  translations : List Caption
  sub_delay : ℚ

/-- Python list indexing `l[i]`: negative indices count from the end;
`none` models a raised `IndexError`. -/
def pyGet (l : List Caption) (i : Int) : Option Caption :=
  if 0 ≤ i then
    if i < l.length then l[i.toNat]? else none
  else
    if 0 ≤ (l.length : Int) + i then l[((l.length : Int) + i).toNat]? else none

/-- The loop of `filter_subtitles` (source lines 325-332): append when the
interval overlaps the padded window, and break once `sub_start > clip_end`
(the break test runs after the possible append). -/
def filterAux (clip_start clip_end pad_start pad_end : ℚ) : List Caption → List Caption
  | [] => []
  | sub :: rest =>
    let kept :=
      if sub.stop > clip_start + pad_start ∧ sub.start < clip_end - pad_end then
        [⟨sub.start - clip_start, sub.stop - clip_start, sub.text⟩]
      else []
    if sub.start > clip_end then kept
    else kept ++ filterAux clip_start clip_end pad_start pad_end rest

/-- `SubtitlesHelper.filter_subtitles` (source lines 317-334). -/
def filter_subtitles (st : SubsState) (clip_start clip_end pad_start pad_end : ℚ)
    (translation : Bool) : List Caption :=
  filterAux clip_start clip_end pad_start pad_end
    (if translation then st.translations else st.subs)

/-- `SubtitlesHelper.write_subtitles` (source lines 336-345), modelled as
the list of numbered entries written to the exported subtitle file. -/
def write_subtitles (st : SubsState) (clip_start clip_end pad_start pad_end : ℚ) :
    List (Nat × Caption) :=
  let subs := filter_subtitles st (clip_start - st.sub_delay) (clip_end - st.sub_delay)
    pad_start pad_end false
  subs.enum.map fun p => (p.1 + 1, p.2)

def get_subtitle_idAux (time_pos : ℚ) : List Caption → Nat → Option Nat
  | [], _ => none
  | sub :: rest, sub_id =>
    if sub.start ≤ time_pos ∧ time_pos ≤ sub.stop then some sub_id
    else get_subtitle_idAux time_pos rest (sub_id + 1)

/-- `SubtitlesHelper.get_subtitle_id` (source lines 347-352). -/
def get_subtitle_id (st : SubsState) (time_pos : ℚ) : Option Nat :=
  get_subtitle_idAux (time_pos - st.sub_delay) st.subs 0

/-- Query result `(start, end, text)`; the sentinel has `none` times. -/
abbrev SubResult := Option ℚ × Option ℚ × String

def mkRes (c : Caption) : SubResult := (some c.start, some c.stop, c.text)

/-- `SubtitlesHelper.get_subtitle` (source lines 354-360); the outer
`Option` models a possible `IndexError` (never raised here). -/
def get_subtitle (st : SubsState) (sub_id : Int) (translation : Bool) : Option SubResult :=
  if sub_id < 0 ∨ sub_id > (st.subs.length : Int) - 1 ∨
      (translation = true ∧ st.translations.length = 0) then
    some (none, none, "")
  else if translation = false then (pyGet st.subs sub_id).map mkRes
  else (pyGet st.translations sub_id).map mkRes

/-- `SubtitlesHelper.get_prev_subtitle` (source lines 366-376); the outer
`Option` models a possible `IndexError`. -/
def get_prev_subtitle (st : SubsState) (sub_id : Int) (translation : Bool) : Option SubResult :=
  if sub_id ≤ 0 ∨ (translation = true ∧ st.translations.length = 0) then
    (pyGet st.subs 0).map fun c => (some c.start, some c.stop, "")
  else
    match pyGet st.subs sub_id, pyGet st.subs (sub_id - 1) with
    | some sub, some prev_sub =>
      if sub.start - prev_sub.stop > 5 then some (some sub.start, some sub.stop, "")
      else if translation = false then (pyGet st.subs (sub_id - 1)).map mkRes
      else (pyGet st.translations (sub_id - 1)).map mkRes
    | _, _ => none

/-- `SubtitlesHelper.get_next_subtitle` (source lines 378-388); the outer
`Option` models a possible `IndexError`. -/
def get_next_subtitle (st : SubsState) (sub_id : Int) (translation : Bool) : Option SubResult :=
  if sub_id ≥ (st.subs.length : Int) - 1 ∨
      (translation = true ∧ st.translations.length = 0) then
    (pyGet st.subs (-1)).map fun c => (some c.start, some c.stop, "")
  else
    match pyGet st.subs sub_id, pyGet st.subs (sub_id + 1) with
    | some sub, some next_sub =>
      if next_sub.start - sub.stop > 5 then some (some sub.start, some sub.stop, "")
      else if translation = false then (pyGet st.subs (sub_id + 1)).map mkRes
      else (pyGet st.translations (sub_id + 1)).map mkRes
    | _, _ => none

/-- `SubtitlesHelper.get_subtitle_by_time_range` (source lines 362-364). -/
def get_subtitle_by_time_range (st : SubsState) (start_time end_time : ℚ)
    (translation : Bool) : String :=
  String.intercalate "<br>"
    ((filter_subtitles st start_time end_time 0 0 translation).map Caption.text)

/-- The merge condition in the spec's vocabulary, as a proposition:
small gap, bounded duration, no blocking opening mark, and either no
terminal punctuation on the previous text or an ellipsis continuation. -/
def specMerge (p c : Caption) : Prop :=
  c.start - p.stop ≤ 2 ∧ c.stop - p.start < 15 ∧
  c.text.data.headD ' ' ∉ openingMarks ∧
  (p.text.data.getLastD ' ' ∉ terminalMarks ∨
    (lastN 3 p.text.data = ['.', '.', '.'] ∧
      (c.text.data.take 3 = ['.', '.', '.'] ∨
        (c.text.data.headD ' ').isLower = true ∨
        startsWithIWord c.text.data = true)))

/-- The pass-1 qualification test in the spec's vocabulary: the intervals
overlap and the overlap duration divided by the native caption's own
duration strictly exceeds `0.25`. -/
def specQual (r t : Caption) : Prop :=
  t.start < r.stop ∧ t.stop > r.start ∧
    (min t.stop r.stop - max t.start r.start) / (r.stop - r.start) > 0.25

instance (p c : Caption) : Decidable (specMerge p c) := by
  unfold specMerge; infer_instance

instance (r t : Caption) : Decidable (specQual r t) := by
  unfold specQual; infer_instance

instance : IsTrans Caption (fun a b => a.start ≤ b.start) :=
  ⟨fun _ _ _ h1 h2 => le_trans h1 h2⟩

/-! ### Theorems -/

/-- C10: the division of pass 1 is reached for a native caption `r` exactly
when some target sentence overlaps `r`; a strictly positive duration makes
the denominator nonzero, while the bare invariant `end >= start` admits a
zero-duration overlapping caption that reaches the division with
denominator zero. -/
theorem C10_division_reachability :
    (∀ (en : List Caption) (r : Caption),
        scanReachesDiv r en = true ↔ ∃ t ∈ en, t.start < r.stop ∧ t.stop > r.start) ∧
    (∀ r : Caption, r.start < r.stop → r.stop - r.start ≠ 0) ∧
    ((⟨1, 1, "z"⟩ : Caption).start ≤ (⟨1, 1, "z"⟩ : Caption).stop ∧
      (⟨1, 1, "z"⟩ : Caption).stop - (⟨1, 1, "z"⟩ : Caption).start = 0 ∧
      scanReachesDiv ⟨1, 1, "z"⟩ [⟨0, 2, "s"⟩] = true) := by
  refine ⟨?_, ?_, le_refl _, sub_self _, by with_unfolding_all rfl⟩
  · intro en r
    induction en with
    | nil => simp [scanReachesDiv]
    | cons t ts ih =>
      by_cases h : t.start < r.stop ∧ t.stop > r.start <;>
        simp [scanReachesDiv, h, ih]
  · intro r h
    exact sub_ne_zero_of_ne (ne_of_gt h)

/-- Witness for C10 at a concrete caption with positive duration. -/
theorem C10_division_reachability_witness :
    ((⟨0, 1, "r"⟩ : Caption).start < (⟨0, 1, "r"⟩ : Caption).stop) ∧
    ((⟨0, 1, "r"⟩ : Caption).stop - (⟨0, 1, "r"⟩ : Caption).start ≠ 0) :=
  ⟨by norm_num, C10_division_reachability.2.1 ⟨0, 1, "r"⟩ (by norm_num)⟩

/-- C6 (amended): point lookup and windowed export apply `sub_delay` by
subtracting it from the query times (they behave at delay `d` exactly as at
delay `0` on times shifted by `d`), while the time-range lookup ignores
`sub_delay` entirely: it passes its query times to the filter unchanged. -/
theorem C6_sub_delay_application :
    ∀ (subs translations : List Caption) (d t cs ce ps pe s e : ℚ) (tr : Bool),
      get_subtitle_id ⟨subs, translations, d⟩ t
          = get_subtitle_id ⟨subs, translations, 0⟩ (t - d) ∧
      write_subtitles ⟨subs, translations, d⟩ cs ce ps pe
          = write_subtitles ⟨subs, translations, 0⟩ (cs - d) (ce - d) ps pe ∧
      get_subtitle_by_time_range ⟨subs, translations, d⟩ s e tr
          = get_subtitle_by_time_range ⟨subs, translations, 0⟩ s e tr := by
  intro subs translations d t cs ce ps pe s e tr
  refine ⟨by simp [get_subtitle_id], by simp [write_subtitles, filter_subtitles], rfl⟩

/-- C6 counterexample: with `sub_delay = 10`, the time-range lookup at the
wall-clock window `[0, 1]` returns the caption text unchanged, whereas a
query that subtracted `sub_delay` (as the claim states) would compare
`[-10, -9]` against the track and return the empty string. -/
theorem C6_counterexample :
    get_subtitle_by_time_range ⟨[⟨0, 1, "a"⟩], [], 10⟩ 0 1 false = "a" ∧
    get_subtitle_by_time_range ⟨[⟨0, 1, "a"⟩], [], 0⟩ (0 - 10) (1 - 10) false = "" ∧
    ("a" : String) ≠ "" := by
  refine ⟨by with_unfolding_all rfl, by with_unfolding_all rfl, by decide⟩

/-- C2 counterexample: one target sentence `[0,10]`, native captions
`[0,10,"a"]` and `[1,2,"b"]` (both with positive duration, starts
non-decreasing).  Both land in the sentence's bucket; the collapsed entry's
end is `2`, the *last* contribution's end, while the maximum end over the
contributions is `10`. -/
theorem C2_counterexample :
    collapse [⟨0, 10, "s"⟩] (sync_pass1 [⟨0, 10, "s"⟩] [⟨0, 10, "a"⟩, ⟨1, 2, "b"⟩])
        = [⟨0, 2, "a b"⟩] ∧
    (sync_pass1 [⟨0, 10, "s"⟩] [⟨0, 10, "a"⟩, ⟨1, 2, "b"⟩]).getD 0 []
        = [⟨0, 10, "a"⟩, ⟨1, 2, "b"⟩] ∧
    ((2 : ℚ) < 10) := by
  refine ⟨by with_unfolding_all rfl, by with_unfolding_all rfl, by norm_num⟩

theorem pyGet_natCast (l : List Caption) (i : Nat) : pyGet l (i : Int) = l[i]? := by
  unfold pyGet
  rw [if_pos (by omega)]
  by_cases h : i < l.length
  · rw [if_pos (by omega), Int.toNat_natCast]
  · rw [if_neg (by omega), List.getElem?_eq_none (by omega : l.length ≤ i)]

theorem pyGet_eq_getD (l : List Caption) (i : Nat) (h : i < l.length) :
    pyGet l (i : Int) = some (l.getD i default) := by
  rw [pyGet_natCast, List.getD_eq_getElem?_getD, List.getElem?_eq_getElem h]
  rfl

theorem pyGet_isSome (l : List Caption) (i : Int) (h0 : 0 ≤ i) (h1 : i < l.length) :
    (pyGet l i).isSome = true := by
  obtain ⟨n, rfl⟩ := Int.eq_ofNat_of_zero_le h0
  rw [pyGet_eq_getD l n (by omega)]
  rfl

theorem pyGet_neg_one (l : List Caption) (h : l ≠ []) :
    pyGet l (-1) = some (l.getD (l.length - 1) default) := by
  have hl : 0 < l.length := List.length_pos.mpr h
  have h1 : ((l.length : Int) + -1).toNat = l.length - 1 := by omega
  unfold pyGet
  rw [if_neg (by omega), if_pos (by omega), h1,
    List.getD_eq_getElem?_getD, List.getElem?_eq_getElem (by omega)]
  rfl

/-- C3 (amended): under the session alignment invariant (translations
either absent or aligned 1:1 with the sentences), the point lookup never
raises for any index and returns the `(None, None, "")` sentinel when out
of range or when a translation is requested but absent; the neighbor
lookups never raise for indices within the track bounds.  (Outside those
bounds the neighbor lookups can raise `IndexError` — see the
counterexample.) -/
theorem C3_query_totality :
    ∀ (st : SubsState) (i : Int) (tr : Bool),
      (tr = true → st.translations = [] ∨ st.translations.length = st.subs.length) →
      (get_subtitle st i tr).isSome = true ∧
      ((i < 0 ∨ i > (st.subs.length : Int) - 1 ∨ (tr = true ∧ st.translations.length = 0)) →
        get_subtitle st i tr = some (none, none, "")) ∧
      (0 ≤ i → i < (st.subs.length : Int) →
        (get_prev_subtitle st i tr).isSome = true ∧
        (get_next_subtitle st i tr).isSome = true) := by
  intro st i tr htr
  refine ⟨?_, ?_, ?_⟩
  · unfold get_subtitle
    by_cases hg : i < 0 ∨ i > (st.subs.length : Int) - 1 ∨
        (tr = true ∧ st.translations.length = 0)
    · rw [if_pos hg]; rfl
    · rw [if_neg hg]
      push_neg at hg
      obtain ⟨h0, h1, h2⟩ := hg
      cases tr with
      | false =>
        rw [if_pos rfl]
        simp [pyGet_isSome st.subs i h0 (by omega)]
      | true =>
        rw [if_neg (by simp)]
        have hne : st.translations.length ≠ 0 := h2 rfl
        have hlen : st.translations.length = st.subs.length := by
          rcases htr rfl with h | h
          · exact absurd (by simp [h]) hne
          · exact h
        simp [pyGet_isSome st.translations i h0 (by omega)]
  · intro hg
    unfold get_subtitle
    rw [if_pos hg]
  · intro h0 h1
    have hnil : st.subs ≠ [] := by
      intro hempty
      rw [hempty] at h1
      simp at h1
      omega
    constructor
    · unfold get_prev_subtitle
      by_cases hg : i ≤ 0 ∨ (tr = true ∧ st.translations.length = 0)
      · rw [if_pos hg]
        simp [pyGet_isSome st.subs 0 le_rfl (by simpa using List.length_pos.mpr hnil)]
      · rw [if_neg hg]
        push_neg at hg
        have hi0 : 0 < i := by omega
        obtain ⟨a, ha⟩ := Option.isSome_iff_exists.mp (pyGet_isSome st.subs i h0 h1)
        obtain ⟨b, hb⟩ :=
          Option.isSome_iff_exists.mp (pyGet_isSome st.subs (i - 1) (by omega) (by omega))
        rw [ha, hb]
        dsimp only
        split
        · rfl
        · cases tr with
          | false => simp [hb]
          | true =>
            have hne : st.translations.length ≠ 0 := hg.2 rfl
            have hlen : st.translations.length = st.subs.length := by
              rcases htr rfl with h | h
              · exact absurd (by simp [h]) hne
              · exact h
            simp [pyGet_isSome st.translations (i - 1) (by omega) (by omega)]
    · unfold get_next_subtitle
      by_cases hg : i ≥ (st.subs.length : Int) - 1 ∨ (tr = true ∧ st.translations.length = 0)
      · rw [if_pos hg]
        rw [pyGet_neg_one st.subs hnil]
        rfl
      · rw [if_neg hg]
        push_neg at hg
        obtain ⟨a, ha⟩ := Option.isSome_iff_exists.mp (pyGet_isSome st.subs i h0 h1)
        obtain ⟨b, hb⟩ :=
          Option.isSome_iff_exists.mp (pyGet_isSome st.subs (i + 1) (by omega) (by omega))
        rw [ha, hb]
        dsimp only
        split
        · rfl
        · cases tr with
          | false => simp [hb]
          | true =>
            have hne : st.translations.length ≠ 0 := hg.2 rfl
            have hlen : st.translations.length = st.subs.length := by
              rcases htr rfl with h | h
              · exact absurd (by simp [h]) hne
              · exact h
            simp [pyGet_isSome st.translations (i + 1) (by omega) (by omega)]

/-- Witness for C3 at a concrete two-element track and in-range index. -/
theorem C3_query_totality_witness :
    (get_prev_subtitle ⟨[⟨0, 1, "a"⟩, ⟨1, 2, "b"⟩], [], 0⟩ 1 false).isSome = true ∧
    (get_next_subtitle ⟨[⟨0, 1, "a"⟩, ⟨1, 2, "b"⟩], [], 0⟩ 1 false).isSome = true :=
  (C3_query_totality ⟨[⟨0, 1, "a"⟩, ⟨1, 2, "b"⟩], [], 0⟩ 1 false (by simp)).2.2
    (by norm_num) (by norm_num)

/-- C3 counterexample: on a one-element track, the previous-neighbor lookup
at index `2` evaluates `self.subs[2]`, an out-of-range access: the claim
that the query surface never raises for indices beyond the track length is
false (`none` models the raised `IndexError`). -/
theorem C3_counterexample :
    get_prev_subtitle ⟨[⟨0, 1, "a"⟩], [], 0⟩ 2 false = none := by
  with_unfolding_all rfl

/-- C7: for an in-range index with an adjacent element, the neighbor
lookups return the adjacent sentence (or its annotation when a translation
is requested) unless the gap to it exceeds `5.0` seconds, in which case
they return the current sentence's own span with empty text; at a track
boundary they return the boundary element's own span with empty text. -/
theorem C7_neighbor_cutoff :
    ∀ (st : SubsState) (i : Nat) (tr : Bool),
      (tr = true → st.translations.length = st.subs.length) →
      i < st.subs.length →
      ((0 < i →
        ((st.subs.getD i default).start - (st.subs.getD (i - 1) default).stop > 5 →
          get_prev_subtitle st (i : Int) tr
            = some (some (st.subs.getD i default).start,
                some (st.subs.getD i default).stop, "")) ∧
        (¬ (st.subs.getD i default).start - (st.subs.getD (i - 1) default).stop > 5 →
          get_prev_subtitle st (i : Int) tr
            = some (mkRes ((if tr = true then st.translations else st.subs).getD
                (i - 1) default)))) ∧
      (i = 0 →
        get_prev_subtitle st (i : Int) tr
          = some (some (st.subs.getD 0 default).start,
              some (st.subs.getD 0 default).stop, "")) ∧
      (i + 1 < st.subs.length →
        ((st.subs.getD (i + 1) default).start - (st.subs.getD i default).stop > 5 →
          get_next_subtitle st (i : Int) tr
            = some (some (st.subs.getD i default).start,
                some (st.subs.getD i default).stop, "")) ∧
        (¬ (st.subs.getD (i + 1) default).start - (st.subs.getD i default).stop > 5 →
          get_next_subtitle st (i : Int) tr
            = some (mkRes ((if tr = true then st.translations else st.subs).getD
                (i + 1) default)))) ∧
      (i = st.subs.length - 1 →
        get_next_subtitle st (i : Int) tr
          = some (some (st.subs.getD i default).start,
              some (st.subs.getD i default).stop, ""))) := by
  intro st i tr htr hi
  have hnil : st.subs ≠ [] := by
    intro hempty
    rw [hempty] at hi
    simp at hi
  have htrne : tr = true → ¬ st.translations.length = 0 := by
    intro h
    rw [htr h]
    omega
  refine ⟨?_, ?_, ?_, ?_⟩
  · intro hi0
    have hcast : (i : Int) - 1 = ((i - 1 : Nat) : Int) := by omega
    have hguard : ¬ ((i : Int) ≤ 0 ∨ (tr = true ∧ st.translations.length = 0)) := by
      push_neg
      exact ⟨by omega, fun h => htrne h⟩
    constructor
    · intro hgap
      unfold get_prev_subtitle
      rw [if_neg hguard, pyGet_eq_getD st.subs i hi, hcast,
        pyGet_eq_getD st.subs (i - 1) (by omega)]
      dsimp only
      rw [if_pos hgap]
    · intro hgap
      unfold get_prev_subtitle
      rw [if_neg hguard, pyGet_eq_getD st.subs i hi, hcast,
        pyGet_eq_getD st.subs (i - 1) (by omega)]
      dsimp only
      rw [if_neg hgap]
      cases tr with
      | false => simp
      | true =>
        rw [pyGet_eq_getD st.translations (i - 1) (by rw [htr rfl]; omega)]
        simp
  · intro h0
    unfold get_prev_subtitle
    have hz : pyGet st.subs 0 = some (st.subs.getD 0 default) := by
      simpa using pyGet_eq_getD st.subs 0 (by omega)
    rw [if_pos (Or.inl (by omega)), hz]
    subst h0
    rfl
  · intro hi1
    have hcast : (i : Int) + 1 = ((i + 1 : Nat) : Int) := by omega
    have hguard : ¬ ((i : Int) ≥ (st.subs.length : Int) - 1 ∨
        (tr = true ∧ st.translations.length = 0)) := by
      push_neg
      exact ⟨by omega, fun h => htrne h⟩
    constructor
    · intro hgap
      unfold get_next_subtitle
      rw [if_neg hguard, pyGet_eq_getD st.subs i hi, hcast,
        pyGet_eq_getD st.subs (i + 1) (by omega)]
      dsimp only
      rw [if_pos hgap]
    · intro hgap
      unfold get_next_subtitle
      rw [if_neg hguard, pyGet_eq_getD st.subs i hi, hcast,
        pyGet_eq_getD st.subs (i + 1) (by omega)]
      dsimp only
      rw [if_neg hgap]
      cases tr with
      | false => simp
      | true =>
        rw [pyGet_eq_getD st.translations (i + 1) (by rw [htr rfl]; omega)]
        simp
  · intro hlast
    unfold get_next_subtitle
    rw [if_pos (Or.inl (by omega)), pyGet_neg_one st.subs hnil, ← hlast]
    rfl

/-- Witness for C7: gap of 9 seconds to the previous caption exceeds the
cutoff, so the lookup returns the current caption's own span with empty
text. -/
theorem C7_neighbor_cutoff_witness :
    get_prev_subtitle ⟨[⟨0, 1, "a"⟩, ⟨10, 11, "b"⟩], [], 0⟩ 1 false
      = some (some 10, some 11, "") := by
  have h := ((C7_neighbor_cutoff ⟨[⟨0, 1, "a"⟩, ⟨10, 11, "b"⟩], [], 0⟩ 1 false
    (by intro h; cases h) (by norm_num)).1 (by norm_num)).1
    (of_decide_eq_true (by with_unfolding_all rfl))
  simpa using h

theorem mergeCond_iff_specMerge (p c : Caption) : mergeCond p c = true ↔ specMerge p c := by
  unfold mergeCond specMerge
  simp [Bool.and_eq_true, Bool.or_eq_true, Bool.not_eq_true', decide_eq_true_eq,
    and_assoc, or_assoc]

/-- C5: with the calibrated target language, a caption `C` is merged into
the previous output element `P` (end extended, texts joined by a space) iff
the gap, duration, leading-mark and terminal-punctuation/ellipsis
conditions all hold; in particular the two captions of spec Example 1
merge and the two captions of spec Example 2 stay separate. -/
theorem C5_reconstructor_merge_rule :
    (∀ (acc : List Caption) (p c : Caption), specMerge p c →
        convertStep (acc ++ [p]) c
          = acc ++ [⟨p.start, c.stop, p.text ++ " " ++ c.text⟩]) ∧
    (∀ (acc : List Caption) (p c : Caption), ¬ specMerge p c →
        convertStep (acc ++ [p]) c = acc ++ [p, c]) ∧
    convert_into_sentences [⟨0, 1, "I don\x27t know"⟩, ⟨2.1, 4, "what to do."⟩]
        = [⟨0, 4, "I don\x27t know what to do."⟩] ∧
    convert_into_sentences [⟨0, 1, "Hello."⟩, ⟨1.2, 2, "World"⟩]
        = [⟨0, 1, "Hello."⟩, ⟨1.2, 2, "World"⟩] := by
  refine ⟨?_, ?_, by with_unfolding_all rfl, by with_unfolding_all rfl⟩
  · intro acc p c h
    unfold convertStep
    rw [List.getLast?_concat]
    dsimp only
    rw [if_pos ((mergeCond_iff_specMerge p c).mpr h), List.dropLast_concat]
  · intro acc p c h
    unfold convertStep
    rw [List.getLast?_concat]
    dsimp only
    rw [if_neg (fun hb => h ((mergeCond_iff_specMerge p c).mp hb)),
      List.append_assoc]
    rfl

/-- Witness for C5 at the captions of spec Example 1. -/
theorem C5_reconstructor_merge_rule_witness :
    convertStep ([] ++ [⟨0, 1, "I don\x27t know"⟩]) ⟨2.1, 4, "what to do."⟩
      = [] ++ [⟨0, 4, "I don\x27t know what to do."⟩] :=
  C5_reconstructor_merge_rule.1 [] ⟨0, 1, "I don\x27t know"⟩ ⟨2.1, 4, "what to do."⟩
    (of_decide_eq_true (by with_unfolding_all rfl))

theorem scanFirstAux_cons (r t : Caption) (ts : List Caption) (i : Nat) :
    scanFirstAux r (t :: ts) i
      = if specQual r t then some i else scanFirstAux r ts (i + 1) := by
  have hmax : (if t.start > r.start then t.start else r.start) = max t.start r.start := by
    rcases le_or_lt t.start r.start with h | h
    · rw [if_neg (not_lt.mpr h), max_eq_right h]
    · rw [if_pos h, max_eq_left (le_of_lt h)]
  have hmin : (if r.stop > t.stop then t.stop else r.stop) = min t.stop r.stop := by
    rcases le_or_lt r.stop t.stop with h | h
    · rw [if_neg (not_lt.mpr h), min_eq_right h]
    · rw [if_pos h, min_eq_left (le_of_lt h)]
  simp only [scanFirstAux, hmax, hmin]
  by_cases h1 : t.start < r.stop ∧ t.stop > r.start
  · rw [if_pos h1]
    by_cases h2 : (min t.stop r.stop - max t.start r.start) / (r.stop - r.start) > 0.25
    · rw [if_pos h2, if_pos ⟨h1.1, h1.2, h2⟩]
    · rw [if_neg h2, if_neg (fun hq => h2 hq.2.2)]
  · rw [if_neg h1, if_neg (fun hq => h1 ⟨hq.1, hq.2.1⟩)]

theorem scanFirstAux_none_iff (r : Caption) :
    ∀ (en : List Caption) (i : Nat),
      scanFirstAux r en i = none ↔ ∀ t ∈ en, ¬ specQual r t := by
  intro en
  induction en with
  | nil => intro i; simp [scanFirstAux]
  | cons t ts ih =>
    intro i
    rw [scanFirstAux_cons]
    by_cases h : specQual r t
    · simp [h]
    · simp [h, ih (i + 1)]

theorem scanFirstAux_some_iff (r : Caption) :
    ∀ (en : List Caption) (i j : Nat),
      scanFirstAux r en i = some j ↔
        ∃ k, k < en.length ∧ j = i + k ∧ specQual r (en.getD k default) ∧
          ∀ m < k, ¬ specQual r (en.getD m default) := by
  intro en
  induction en with
  | nil => intro i j; simp [scanFirstAux]
  | cons t ts ih =>
    intro i j
    rw [scanFirstAux_cons]
    by_cases h : specQual r t
    · rw [if_pos h]
      constructor
      · intro h'
        injection h' with h'
        exact ⟨0, by simp, by omega, by simpa using h, by omega⟩
      · rintro ⟨k, hk, rfl, hq, hmin⟩
        cases k with
        | zero => simp
        | succ n => exact absurd h (by simpa using hmin 0 (Nat.succ_pos n))
    · rw [if_neg h, ih (i + 1) j]
      constructor
      · rintro ⟨k, hk, rfl, hq, hmin⟩
        refine ⟨k + 1, by simpa using hk, by omega, by simpa using hq, ?_⟩
        intro m hm
        cases m with
        | zero => simpa using h
        | succ n => simpa using hmin n (by omega)
      · rintro ⟨k, hk, hj, hq, hmin⟩
        cases k with
        | zero => exact absurd (by simpa using hq) h
        | succ n =>
          refine ⟨n, by simpa using hk, by omega, by simpa using hq, ?_⟩
          intro m hm
          simpa using hmin (m + 1) (by omega)

theorem sync_pass1_go (en : List Caption) :
    ∀ (ru : List Caption) (buckets : List (List Caption)),
      buckets.length = en.length →
      (ru.foldl (fun bs r =>
          match scanFirst en r with
          | some i => bs.set i (bs.getD i [] ++ [r])
          | none => bs) buckets).length = en.length ∧
      ∀ i, (ru.foldl (fun bs r =>
          match scanFirst en r with
          | some i => bs.set i (bs.getD i [] ++ [r])
          | none => bs) buckets).getD i []
        = buckets.getD i [] ++ ru.filter (fun r => scanFirst en r == some i) := by
  intro ru
  induction ru with
  | nil => intro buckets hlen; simp [hlen]
  | cons r rs ih =>
    intro buckets hlen
    simp only [List.foldl_cons, List.filter_cons]
    cases hscan : scanFirst en r with
    | none =>
      have h := ih buckets hlen
      simp only [hscan]
      refine ⟨h.1, fun i => ?_⟩
      rw [h.2 i]
      simp
    | some j =>
      have hj : j < en.length := by
        obtain ⟨k, hk, hjk, _, _⟩ := (scanFirstAux_some_iff r en 0 j).mp hscan
        omega
      have hlen' : (buckets.set j (buckets.getD j [] ++ [r])).length = en.length := by
        simp [hlen]
      have h := ih (buckets.set j (buckets.getD j [] ++ [r])) hlen'
      simp only [hscan]
      refine ⟨h.1, fun i => ?_⟩
      rw [h.2 i]
      by_cases hij : i = j
      · subst hij
        have hset : (buckets.set i (buckets.getD i [] ++ [r])).getD i []
            = buckets.getD i [] ++ [r] := by
          rw [List.getD_eq_getElem?_getD, List.getElem?_set_self (by omega), Option.getD_some]
        rw [hset]
        simp [List.append_assoc]
      · have hset : (buckets.set j (buckets.getD j [] ++ [r])).getD i []
            = buckets.getD i [] := by
          rw [List.getD_eq_getElem?_getD, List.getElem?_set_ne (Ne.symm hij),
            ← List.getD_eq_getElem?_getD]
        rw [hset]
        have hc : (some j == some i) = false := by
          simp only [beq_eq_false_iff_ne, ne_eq, Option.some.injEq]
          exact fun hji => hij hji.symm
        simp [hc]

theorem sync_pass1_length (en ru : List Caption) :
    (sync_pass1 en ru).length = en.length := by
  unfold sync_pass1
  exact (sync_pass1_go en ru (en.map fun _ => []) (by simp)).1

theorem sync_pass1_getD (en ru : List Caption) (i : Nat) :
    (sync_pass1 en ru).getD i [] = ru.filter fun r => scanFirst en r == some i := by
  unfold sync_pass1
  rw [(sync_pass1_go en ru (en.map fun _ => []) (by simp)).2 i]
  have hinit : (en.map fun _ => ([] : List Caption)).getD i [] = [] := by
    rw [List.getD_eq_getElem?_getD, List.getElem?_map]
    cases en[i]? <;> rfl
  rw [hinit]
  rfl

theorem collapse_length (en : List Caption) (buckets : List (List Caption))
    (hlen : buckets.length = en.length) :
    (collapse en buckets).length = en.length := by
  simp [collapse, hlen]

theorem collapse_getD (en : List Caption) (buckets : List (List Caption))
    (hlen : buckets.length = en.length) (i : Nat) (hi : i < en.length) :
    (collapse en buckets).getD i default
      = match buckets.getD i [] with
        | [] => ⟨(en.getD i default).start, (en.getD i default).stop, ""⟩
        | c :: cs => ⟨c.start, (cs.getLastD c).stop,
            String.intercalate " " ((c :: cs).map Caption.text)⟩ := by
  have hzi : i < (en.zip buckets).length := by rw [List.length_zip]; omega
  rw [List.getD_eq_getElem?_getD (collapse en buckets) i default]
  unfold collapse
  rw [List.getElem?_map, List.getElem?_eq_getElem hzi, List.getElem_zip]
  rw [List.getD_eq_getElem?_getD en, List.getElem?_eq_getElem hi,
    List.getD_eq_getElem?_getD buckets,
    List.getElem?_eq_getElem (show i < buckets.length by omega)]
  rfl

/-- C4: in pass 1 every native caption contributes exactly to the bucket
of the first target sentence (in track order) that overlaps it with
overlap-to-duration ratio above 0.25, and to no other bucket; a caption
with no qualifying sentence contributes nowhere. -/
theorem C4_pass1_first_match :
    ∀ (en ru : List Caption), (∀ r ∈ ru, r.start < r.stop) →
      (sync_pass1 en ru).length = en.length ∧
      (∀ i, (sync_pass1 en ru).getD i []
          = ru.filter fun r => scanFirst en r == some i) ∧
      (∀ r j, scanFirst en r = some j →
        j < en.length ∧ specQual r (en.getD j default) ∧
          ∀ m < j, ¬ specQual r (en.getD m default)) ∧
      (∀ r, scanFirst en r = none → ∀ t ∈ en, ¬ specQual r t) := by
  intro en ru _
  refine ⟨sync_pass1_length en ru, sync_pass1_getD en ru, ?_, ?_⟩
  · intro r j hj
    obtain ⟨k, hk, hjk, hq, hmin⟩ := (scanFirstAux_some_iff r en 0 j).mp hj
    have hk0 : j = k := by omega
    subst hk0
    exact ⟨hk, hq, fun m hm => hmin m hm⟩
  · intro r hr
    exact (scanFirstAux_none_iff r en 0).mp hr

/-- Witness for C4 at a one-sentence, one-caption session. -/
theorem C4_pass1_first_match_witness :
    (sync_pass1 [⟨0, 4, "s"⟩] [⟨0, 2, "a"⟩]).length = 1 :=
  (C4_pass1_first_match [⟨0, 4, "s"⟩] [⟨0, 2, "a"⟩]
    (by intro r hr; rw [List.mem_singleton] at hr; subst hr; norm_num)).1

/-- C2 (amended): the collapsed annotation entry of a non-empty bucket has
start equal to the first contribution's start and end equal to the *last*
contribution's end (the minimum start, and the maximum end only when the
contributions' ends are non-decreasing), text the contributions' texts
joined by a single space in match order; an empty bucket yields the
sentence's own span with empty text. -/
theorem C2_collapse_characterization :
    ∀ (en ru : List Caption), (∀ r ∈ ru, r.start < r.stop) →
      (collapse en (sync_pass1 en ru)).length = en.length ∧
      ∀ i, i < en.length →
        (collapse en (sync_pass1 en ru)).getD i default
          = match ru.filter (fun r => scanFirst en r == some i) with
            | [] => ⟨(en.getD i default).start, (en.getD i default).stop, ""⟩
            | c :: cs => ⟨c.start, (cs.getLastD c).stop,
                String.intercalate " " ((c :: cs).map Caption.text)⟩ := by
  intro en ru _
  refine ⟨collapse_length en _ (sync_pass1_length en ru), ?_⟩
  intro i hi
  rw [collapse_getD en _ (sync_pass1_length en ru) i hi, sync_pass1_getD en ru i]

/-- Witness for C2's amended claim at the counterexample session. -/
theorem C2_collapse_characterization_witness :
    (collapse [⟨0, 10, "s"⟩] (sync_pass1 [⟨0, 10, "s"⟩] [⟨0, 10, "a"⟩, ⟨1, 2, "b"⟩])).length
      = 1 :=
  (C2_collapse_characterization [⟨0, 10, "s"⟩] [⟨0, 10, "a"⟩, ⟨1, 2, "b"⟩]
    (by
      intro r hr
      simp only [List.mem_cons, List.not_mem_nil, or_false] at hr
      rcases hr with rfl | rfl <;> norm_num)).1

theorem mergeAt_fst_length (subs t : List Caption) (idx : Nat) (h : idx < subs.length) :
    (mergeAt subs t idx).1.length = subs.length - 1 := by
  unfold mergeAt
  dsimp only
  rw [List.length_eraseIdx]
  simp only [apply_ite List.length, List.length_set, ite_self]
  rw [if_pos h]

theorem mergeAt_snd_length (subs t : List Caption) (idx : Nat) (h : idx < t.length) :
    (mergeAt subs t idx).2.length = t.length - 1 := by
  unfold mergeAt
  dsimp only
  rw [List.length_eraseIdx, if_pos h]

theorem mergeAt_snd_before_idx (subs t : List Caption) (idx j : Nat) (hj : j < idx) :
    (mergeAt subs t idx).2.getD j default = t.getD j default := by
  unfold mergeAt
  dsimp only
  rw [List.getD_eq_getElem?_getD, List.getElem?_eraseIdx, if_pos hj,
    ← List.getD_eq_getElem?_getD]

theorem gapRepairAux_invariant :
    ∀ (subs t : List Caption) (idx : Nat),
      t.length = subs.length →
      (∀ j < idx, (t.getD j default).text ≠ "") →
      (gapRepairAux subs t idx).2.length = (gapRepairAux subs t idx).1.length ∧
      ((gapRepairAux subs t idx).1.length ≠ 1 →
        ∀ a ∈ (gapRepairAux subs t idx).2, a.text ≠ "") := by
  intro subs t idx
  induction subs, t, idx using gapRepairAux.induct with
  | case1 subs t idx h hemp ih =>
    intro hlen hpre
    rw [gapRepairAux.eq_def, dif_pos h, if_pos hemp]
    apply ih
    · rw [mergeAt_snd_length _ _ _ (by omega), mergeAt_fst_length _ _ _ (by omega), hlen]
    · intro j hj
      rw [mergeAt_snd_before_idx _ _ _ j hj]
      exact hpre j hj
  | case2 subs t idx h hne ih =>
    intro hlen hpre
    rw [gapRepairAux.eq_def, dif_pos h, if_neg hne]
    apply ih hlen
    intro j hj
    rcases Nat.lt_succ_iff_lt_or_eq.mp hj with h' | h'
    · exact hpre j h'
    · subst h'
      exact hne
  | case3 subs t idx h =>
    intro hlen hpre
    rw [gapRepairAux.eq_def, dif_neg h]
    refine ⟨hlen, ?_⟩
    intro hne1 a ha
    obtain ⟨n, hn, rfl⟩ := List.mem_iff_getElem.mp ha
    have hn' : n < t.length := hn
    have hne1' : subs.length ≠ 1 := hne1
    by_cases hcase : 1 < subs.length
    · have hidx : subs.length ≤ idx := by omega
      have hj : (t.getD n default).text ≠ "" := hpre n (by omega)
      rwa [List.getD_eq_getElem?_getD, List.getElem?_eq_getElem hn'] at hj
    · have : t.length = 0 := by omega
      omega

/-- C1: after the full Synchronizer run (pass 1, collapse, gap repair) the
SentenceTrack and the aligned annotation have equal length, and no
annotation text is empty unless the SentenceTrack has at most one
element. -/
theorem C1_sync_length_invariant :
    ∀ en ru : List Caption,
      (sync_subtitles en ru).2.length = (sync_subtitles en ru).1.length ∧
      ((sync_subtitles en ru).1.length ≠ 1 →
        ∀ a ∈ (sync_subtitles en ru).2, a.text ≠ "") := by
  intro en ru
  unfold sync_subtitles gapRepair
  exact gapRepairAux_invariant en (collapse en (sync_pass1 en ru)) 0
    (collapse_length en _ (sync_pass1_length en ru)) (by omega)

theorem gapRepairAux_no_merge :
    ∀ (subs t : List Caption) (idx : Nat),
      subs.length ≤ t.length →
      (∀ j, idx ≤ j → j < t.length → (t.getD j default).text ≠ "") →
      gapRepairAux subs t idx = (subs, t) := by
  intro subs t idx
  induction subs, t, idx using gapRepairAux.induct with
  | case1 subs t idx h hemp ih =>
    intro hlen hall
    exact absurd hemp (hall idx le_rfl (by omega))
  | case2 subs t idx h hne ih =>
    intro hlen hall
    rw [gapRepairAux.eq_def, dif_pos h, if_neg hne]
    exact ih hlen (fun j hj hjl => hall j (by omega) hjl)
  | case3 subs t idx h =>
    intro _ _
    rw [gapRepairAux.eq_def, dif_neg h]

/-- C9: running the gap-repair pass again on an already-repaired pair
changes nothing. -/
theorem C9_gap_repair_idempotent :
    ∀ subs translations : List Caption,
      translations.length = subs.length →
      gapRepair (gapRepair subs translations).1 (gapRepair subs translations).2
        = gapRepair subs translations := by
  intro subs t hlen
  have hinv := gapRepairAux_invariant subs t 0 hlen (by omega)
  unfold gapRepair at hinv ⊢
  set out := gapRepairAux subs t 0 with hout
  by_cases hc : 1 < out.1.length
  · apply gapRepairAux_no_merge out.1 out.2 0 (by omega)
    intro j _ hj
    have hmem : out.2.getD j default ∈ out.2 := by
      rw [List.getD_eq_getElem?_getD, List.getElem?_eq_getElem hj]
      exact List.getElem_mem hj
    exact hinv.2 (by omega) _ hmem
  · rw [gapRepairAux.eq_def, dif_neg (by omega : ¬ (0 < out.1.length ∧ 1 < out.1.length))]

/-- Witness for C9 at a concrete repaired pair. -/
theorem C9_gap_repair_idempotent_witness :
    gapRepair (gapRepair [⟨0, 1, "a"⟩, ⟨1, 2, "b"⟩] [⟨0, 1, "x"⟩, ⟨1, 2, ""⟩]).1
        (gapRepair [⟨0, 1, "a"⟩, ⟨1, 2, "b"⟩] [⟨0, 1, "x"⟩, ⟨1, 2, ""⟩]).2
      = gapRepair [⟨0, 1, "a"⟩, ⟨1, 2, "b"⟩] [⟨0, 1, "x"⟩, ⟨1, 2, ""⟩] :=
  C9_gap_repair_idempotent [⟨0, 1, "a"⟩, ⟨1, 2, "b"⟩] [⟨0, 1, "x"⟩, ⟨1, 2, ""⟩] rfl

theorem list_set_self {α : Type} :
    ∀ (l : List α) (n : Nat) (a : α), l[n]? = some a → l.set n a = l := by
  intro l
  induction l with
  | nil => intro n a h; simp at h
  | cons x xs ih =>
    intro n a h
    cases n with
    | zero =>
      simp only [List.getElem?_cons_zero, Option.some.injEq] at h
      simp [h]
    | succ m =>
      simp only [List.getElem?_cons_succ] at h
      simp [List.set_cons_succ, ih m a h]

theorem map_eraseIdx' {α β : Type} (f : α → β) :
    ∀ (l : List α) (i : Nat), (l.eraseIdx i).map f = (l.map f).eraseIdx i := by
  intro l
  induction l with
  | nil => intro i; rfl
  | cons x xs ih =>
    intro i
    cases i with
    | zero => rfl
    | succ m => simp [List.eraseIdx_cons_succ, ih m]

theorem set_eraseIdx_swap {α : Type} :
    ∀ (L : List α) (i : Nat) (x : α), i + 1 < L.length → L[i]? = some x →
      (L.set (i + 1) x).eraseIdx i = L.eraseIdx (i + 1) := by
  intro L
  induction L with
  | nil => intro i x h; simp at h
  | cons a l ih =>
    intro i x hlen hx
    cases i with
    | zero =>
      simp only [List.getElem?_cons_zero, Option.some.injEq] at hx
      subst hx
      cases l with
      | nil => simp at hlen
      | cons b t => rfl
    | succ m =>
      simp only [List.getElem?_cons_succ] at hx
      have hm : m + 1 < l.length := by simpa using hlen
      simp [List.set_cons_succ, List.eraseIdx_cons_succ, ih m x hm hx]

theorem map_start_getElem? (subs : List Caption) (k : Nat) (hk : k < subs.length) :
    (subs.map Caption.start)[k]? = some ((subs.getD k default).start) := by
  rw [List.getElem?_map, List.getElem?_eq_getElem hk, List.getD_eq_getElem?_getD,
    List.getElem?_eq_getElem hk]
  rfl

theorem mergeAt_map_start (subs t : List Caption) (idx : Nat)
    (h1 : idx < subs.length) (h2 : 1 < subs.length) :
    ∃ j, (j = idx ∨ j = idx + 1) ∧
      (mergeAt subs t idx).1.map Caption.start
        = (subs.map Caption.start).eraseIdx j := by
  have hback : ∀ c : Caption, c.start = (subs.getD (idx - 1) default).start →
      ((subs.set (idx - 1) c).eraseIdx idx).map Caption.start
        = (subs.map Caption.start).eraseIdx idx := by
    intro c hc
    rw [map_eraseIdx', List.map_set, hc, list_set_self]
    exact map_start_getElem? subs (idx - 1) (by omega)
  have hforward : idx + 1 < subs.length →
      ∀ c : Caption, c.start = (subs.getD idx default).start →
      ((subs.set (idx + 1) c).eraseIdx idx).map Caption.start
        = (subs.map Caption.start).eraseIdx (idx + 1) := by
    intro hlt c hc
    rw [map_eraseIdx', List.map_set, hc]
    exact set_eraseIdx_swap _ idx _ (by simpa using hlt)
      (map_start_getElem? subs idx h1)
  have hbackx := hback ⟨(subs.getD (idx - 1) default).start, (subs.getD idx default).stop,
    (subs.getD (idx - 1) default).text ++ " " ++ (subs.getD idx default).text⟩ rfl
  unfold mergeAt
  dsimp only
  by_cases hb1 : idx = subs.length - 1
  · rw [if_pos hb1]
    exact ⟨idx, Or.inl rfl, hbackx⟩
  · rw [if_neg hb1]
    have hn : idx < subs.length - 1 := by omega
    have hlt : idx + 1 < subs.length := by omega
    have hfwdx := hforward hlt ⟨(subs.getD idx default).start,
      (subs.getD (idx + 1) default).stop,
      (subs.getD idx default).text ++ " " ++ (subs.getD (idx + 1) default).text⟩ rfl
    rw [if_pos hn]
    by_cases h0 : 0 < idx
    · rw [if_pos h0]
      split
      · exact ⟨idx, Or.inl rfl, hbackx⟩
      · split
        · exact ⟨idx + 1, Or.inr rfl, hfwdx⟩
        · split
          · exact ⟨idx, Or.inl rfl, hbackx⟩
          · exact ⟨idx + 1, Or.inr rfl, hfwdx⟩
    · rw [if_neg h0]
      split
      · exact ⟨idx, Or.inl rfl, hbackx⟩
      · split
        · exact ⟨idx + 1, Or.inr rfl, hfwdx⟩
        · split
          · exact ⟨idx, Or.inl rfl, hbackx⟩
          · exact ⟨idx + 1, Or.inr rfl, hfwdx⟩

theorem convert_foldl_pairwise :
    ∀ (rest acc : List Caption),
      List.Pairwise (fun a b => a.start ≤ b.start) (acc ++ rest) →
      List.Pairwise (fun a b => a.start ≤ b.start) (rest.foldl convertStep acc) := by
  intro rest
  induction rest with
  | nil => intro acc h; simpa using h
  | cons r rs ih =>
    intro acc h
    rw [List.foldl_cons]
    apply ih
    unfold convertStep
    cases hlast : acc.getLast? with
    | none =>
      have hacc : acc = [] := List.getLast?_eq_none_iff.mp hlast
      subst hacc
      simpa using h
    | some p =>
      dsimp only
      by_cases hm : mergeCond p r
      · rw [if_pos hm]
        have hacc : acc.dropLast ++ [p] = acc := List.dropLast_append_getLast? p hlast
        rw [← hacc] at h
        refine List.pairwise_map.mp ?_
        have hmap : List.map Caption.start
            ((acc.dropLast ++ [⟨p.start, r.stop, p.text ++ " " ++ r.text⟩]) ++ rs)
            = (List.map Caption.start acc.dropLast ++ [p.start])
              ++ List.map Caption.start rs := by
          simp
        rw [hmap]
        have h' : List.Pairwise (· ≤ ·)
            ((List.map Caption.start acc.dropLast ++ [p.start])
              ++ (r.start :: List.map Caption.start rs)) := by
          have hp := List.pairwise_map.mpr h
          simpa using hp
        exact List.Pairwise.sublist
          (List.Sublist.append_left (List.sublist_cons_self r.start _) _) h'
      · rw [if_neg hm]
        have heq : (acc ++ [r]) ++ rs = acc ++ (r :: rs) := by simp
        rw [heq]
        exact h

/-- C8: on a target track ordered by non-decreasing start, the
SentenceTrack produced by the Reconstructor is ordered by non-decreasing
start, and every single gap-repair merge step (both backward and forward)
preserves that ordering. -/
theorem C8_ordering_invariant :
    (∀ subs : List Caption,
        List.Chain' (fun a b => a.start ≤ b.start) subs →
        List.Chain' (fun a b => a.start ≤ b.start) (convert_into_sentences subs)) ∧
    (∀ (subs translations : List Caption) (idx : Nat),
        idx < subs.length → 1 < subs.length →
        List.Chain' (fun a b => a.start ≤ b.start) subs →
        List.Chain' (fun a b => a.start ≤ b.start) (mergeAt subs translations idx).1) := by
  constructor
  · intro subs h
    rw [List.chain'_iff_pairwise] at h ⊢
    unfold convert_into_sentences
    exact convert_foldl_pairwise subs [] (by simpa using h)
  · intro subs t idx h1 h2 h
    rw [List.chain'_iff_pairwise] at h ⊢
    obtain ⟨j, _, hmap⟩ := mergeAt_map_start subs t idx h1 h2
    refine List.pairwise_map.mp ?_
    rw [hmap]
    exact List.Pairwise.sublist (List.eraseIdx_sublist _ j) (List.pairwise_map.mpr h)

/-- Witness for C8 at spec Example 2's two ordered captions. -/
theorem C8_ordering_invariant_witness :
    List.Chain' (fun a b : Caption => a.start ≤ b.start)
      (convert_into_sentences [⟨0, 1, "Hello."⟩, ⟨1.2, 2, "World"⟩]) :=
  C8_ordering_invariant.1 [⟨0, 1, "Hello."⟩, ⟨1.2, 2, "World"⟩]
    (by
      rw [List.chain'_cons]
      exact ⟨by norm_num, List.chain'_singleton _⟩)

end Mpv2Anki
